import Mathlib

/-!
Verification of GiNaC core claims against a shallow embedding of the
source.  Each section embeds the relevant functions from the C++ source
(archive.cpp, matrix.cpp, container.pl, print.cpp, ex.h,
inifcns_nstdsums.cpp) as executable Lean definitions and proves the
claimed properties about them.
-/

/-! ## Archive wire encoding (archive.cpp, write_unsigned / read_unsigned)

Bytes are modelled as natural numbers (the stream carries values
0..255).  `unsigned int` arithmetic is arithmetic modulo 2^32, made
explicit where the C++ relies on it.
-/

/-- Embedding of `write_unsigned` (archive.cpp lines 169-177): while
`val >= 0x80` emit the low seven bits with the high bit set and shift
`val` right by 7; finally emit the remaining value verbatim. -/
def write_unsigned (val : Nat) : List Nat :=
  if _h : val < 0x80 then [val]
  else ((val &&& 0x7f) ||| 0x80) :: write_unsigned (val >>> 7)
termination_by val
decreasing_by
  simp only [Nat.shiftRight_eq_div_pow]
  exact Nat.div_lt_self (by omega) (by norm_num)

/-- Embedding of the loop body of `read_unsigned` (archive.cpp lines
179-193): accumulate `ret |= (b & 0x7f) << shift` in 32-bit unsigned
arithmetic and continue while the high bit of the byte is set.  Reading
past the end of the stream is modelled as `none`. -/
def read_unsigned_aux : List Nat → Nat → Nat → Option (Nat × List Nat)
  | [], _, _ => none
  | b :: bs, ret, shift =>
    let ret2 := ret ||| (((b &&& 0x7f) <<< shift) % 2 ^ 32)
    if b &&& 0x80 ≠ 0 then read_unsigned_aux bs ret2 (shift + 7) else some (ret2, bs)

/-- Embedding of `read_unsigned`: run the do-while loop with `ret = 0`
and `shift = 0`, returning the decoded value and the rest of the
stream. -/
def read_unsigned (s : List Nat) : Option (Nat × List Nat) :=
  read_unsigned_aux s 0 0

theorem and_x7f_eq_mod (x : Nat) : x &&& 0x7f = x % 128 := by
  have h : (0x7f : Nat) = 2 ^ 7 - 1 := by norm_num
  rw [h, Nat.and_pow_two_sub_one_eq_mod]

theorem shiftRight7_eq_div (x : Nat) : x >>> 7 = x / 128 := by
  rw [Nat.shiftRight_eq_div_pow]

theorem lor_disjoint_eq_add (a b n : Nat) (h : a < 2 ^ n) :
    a ||| b * 2 ^ n = a + b * 2 ^ n := by
  have h2 := Nat.mul_add_lt_is_or h b
  calc a ||| b * 2 ^ n = 2 ^ n * b ||| a := by rw [Nat.lor_comm, Nat.mul_comm]
    _ = 2 ^ n * b + a := (h2.symm)
    _ = a + b * 2 ^ n := by ring

theorem and_x80_of_lt (x : Nat) (h : x < 128) : x &&& 0x80 = 0 := by
  have h1 : (0x80 : Nat) = 2 ^ 7 := by norm_num
  rw [h1, Nat.and_two_pow]
  have : x.testBit 7 = false := Nat.testBit_eq_false_of_lt (by omega)
  simp [this]

theorem read_unsigned_aux_write (v : Nat) : ∀ ret shift rest,
    ret < 2 ^ shift → ret + v * 2 ^ shift < 2 ^ 32 →
    read_unsigned_aux (write_unsigned v ++ rest) ret shift =
      some (ret + v * 2 ^ shift, rest) := by
  induction v using Nat.strong_induction_on with
  | _ v ih =>
    intro ret shift rest hret hbound
    by_cases hv : v < 0x80
    · rw [write_unsigned, dif_pos hv]
      simp only [List.cons_append, List.nil_append, read_unsigned_aux]
      have hmask : v &&& 0x7f = v := by rw [and_x7f_eq_mod]; omega
      have hstop : v &&& 0x80 = 0 := and_x80_of_lt v (by omega)
      have hsl : v <<< shift = v * 2 ^ shift := Nat.shiftLeft_eq v shift
      have hmod : (v <<< shift) % 2 ^ 32 = v * 2 ^ shift := by
        rw [hsl]; exact Nat.mod_eq_of_lt (by omega)
      simp only [hmask, hstop, hmod, ne_eq, not_true_eq_false, if_false,
        ite_false, not_false_iff]
      rw [lor_disjoint_eq_add ret v shift hret]
      simp
    · rw [write_unsigned, dif_neg hv]
      simp only [List.cons_append, read_unsigned_aux]
      have hm : v &&& 0x7f = v % 128 := and_x7f_eq_mod v
      have hd : v >>> 7 = v / 128 := shiftRight7_eq_div v
      -- the emitted byte has its high bit set and its low bits are v % 128
      have hbyte_lo : ((v &&& 0x7f) ||| 0x80) &&& 0x7f = v % 128 := by
        rw [Nat.and_distrib_right, Nat.and_assoc]
        have h1 : (0x7f : Nat) &&& 0x7f = 0x7f := by decide
        have h2 : (0x80 : Nat) &&& 0x7f = 0 := by decide
        rw [h1, h2, Nat.or_zero, hm]
      have hbyte_hi : ((v &&& 0x7f) ||| 0x80) &&& 0x80 ≠ 0 := by
        rw [Nat.and_distrib_right]
        have h1 : (0x80 : Nat) &&& 0x80 = 0x80 := by norm_num
        have h2 : (v &&& 0x7f) &&& 0x80 = 0 :=
          and_x80_of_lt _ (by rw [hm]; omega)
        rw [h1, h2]
        norm_num
      have hvm : v % 128 < 128 := Nat.mod_lt v (by norm_num)
      have hsl : ((((v &&& 0x7f) ||| 0x80) &&& 0x7f) <<< shift) % 2 ^ 32
          = (v % 128) * 2 ^ shift := by
        rw [hbyte_lo, Nat.shiftLeft_eq]
        refine Nat.mod_eq_of_lt ?_
        have : v % 128 * 2 ^ shift ≤ v * 2 ^ shift :=
          Nat.mul_le_mul_right _ (Nat.mod_le v 128)
        omega
      have hrec := ih (v >>> 7) (by rw [hd]; exact Nat.div_lt_self (by omega) (by norm_num))
        (ret + v % 128 * 2 ^ shift) (shift + 7) rest
      rw [hd] at hrec
      have hvdm : v / 128 * 128 + v % 128 = v := by omega
      have hsplit : v / 128 * 2 ^ (shift + 7) = v / 128 * 128 * 2 ^ shift := by
        rw [pow_add]; ring
      have hmix : v % 128 * 2 ^ shift + v / 128 * 128 * 2 ^ shift = v * 2 ^ shift := by
        rw [← Nat.add_mul, Nat.add_comm, hvdm]
      have hlt1 : ret + v % 128 * 2 ^ shift < 2 ^ (shift + 7) := by
        have h1 : v % 128 * 2 ^ shift ≤ 127 * 2 ^ shift :=
          Nat.mul_le_mul_right _ (by omega)
        have h2 : (2 : Nat) ^ (shift + 7) = 128 * 2 ^ shift := by
          rw [pow_add]; ring
        omega
      have hlt2 : ret + v % 128 * 2 ^ shift + v / 128 * 2 ^ (shift + 7) < 2 ^ 32 := by
        rw [hsplit]; omega
      have key := hrec hlt1 hlt2
      have hfin : ret + v % 128 * 2 ^ shift + v / 128 * 2 ^ (shift + 7)
          = ret + v * 2 ^ shift := by
        rw [hsplit]; omega
      rw [hfin] at key
      rw [if_pos hbyte_hi, hsl, lor_disjoint_eq_add ret (v % 128) shift hret, hd]
      exact key

/-- Claim C3: `write_unsigned` emits each value in `0x00..0x7f` as one
verbatim byte and each larger value as its low seven bits with the high
bit set followed by the encoding of the remaining bits, and for every
unsigned 32-bit value `v`, `read_unsigned` applied to the byte sequence
produced by `write_unsigned v` returns `v` (consuming exactly those
bytes). -/
theorem write_read_unsigned_roundtrip :
    (∀ v : Nat, v < 0x80 → write_unsigned v = [v]) ∧
    (∀ v : Nat, 0x80 ≤ v →
      write_unsigned v = ((v &&& 0x7f) ||| 0x80) :: write_unsigned (v >>> 7)) ∧
    (∀ v : Nat, v < 2 ^ 32 → ∀ rest,
      read_unsigned (write_unsigned v ++ rest) = some (v, rest)) := by
  refine ⟨?_, ?_, ?_⟩
  · intro v hv; rw [write_unsigned, dif_pos hv]
  · intro v hv; rw [write_unsigned, dif_neg (by omega)]
  · intro v hv rest
    have h := read_unsigned_aux_write v 0 0 rest (by norm_num) (by simpa using hv)
    simpa [read_unsigned] using h

/-- Witness for C3 at the concrete value 300 (two-byte encoding). -/
theorem write_read_unsigned_roundtrip_witness :
    read_unsigned (write_unsigned 300 ++ []) = some (300, []) :=
  write_read_unsigned_roundtrip.2.2 300 (by norm_num) []

/-! ## Expression handles (ex.h)

A handle `ex` is a pointer `bp` to a reference-counted node; pointers are
modelled as natural numbers.  `ex::compare` first tests pointer equality
and only then falls back to comparing node contents; the content
comparison is abstracted as an arbitrary function, so anything proved
for every such function is established without inspecting node
contents. -/

/-- A handle: just the node pointer `bp` (ex.h).  Reference counting does
not affect the values computed here. -/
structure ex_handle where
  bp : Nat
deriving DecidableEq

/-- The process-wide zero singleton `exZERO()` (ex.h); its node lives at
some fixed address, taken to be 0 in the model. -/
def exZERO : ex_handle := ⟨0⟩

/-- Embedding of the default constructor `ex::ex()` (ex.h lines
910-919): the new handle attaches to the node of `exZERO()`. -/
def ex_default : ex_handle := ⟨exZERO.bp⟩

/-- Embedding of `ex::compare` (ex.h lines 1036-1049): if both handles
point to the same node, return 0 without looking at the nodes; otherwise
compare contents (`bp->compare(*other.bp)`, abstracted as
`content_compare`). -/
def ex_compare (content_compare : Nat → Nat → Int) (a other : ex_handle) : Int :=
  if a.bp = other.bp then 0 else content_compare a.bp other.bp

/-- Embedding of `ex::is_zero` (ex.h line 1064):
`compare(exZERO()) == 0`. -/
def ex_is_zero (content_compare : Nat → Nat → Int) (a : ex_handle) : Bool :=
  ex_compare content_compare a exZERO == 0

/-- Claim C10: a default-constructed handle denotes zero: for every
content comparison function (i.e. without inspecting node contents),
`ex()` satisfies `is_zero` and compares equal to `exZERO()` through the
pointer-equality fast path. -/
theorem ex_default_is_zero :
    ∀ content_compare : Nat → Nat → Int,
      ex_is_zero content_compare ex_default = true ∧
      ex_compare content_compare ex_default exZERO = 0 := by
  intro cc
  constructor
  · simp [ex_is_zero, ex_compare, ex_default]
  · simp [ex_compare, ex_default]

/-! ## Matrix element access and archive id lookup (matrix.cpp, archive.cpp) -/

/-- A matrix as stored by the source (matrix.cpp): `row`/`col` are C++
`int`s, the elements are a flat vector in row-major order. -/
structure gmatrix (R : Type) where
  row : Int
  col : Int
  m : List R

/-- Embedding of `matrix::operator()` (matrix.cpp lines 432-439): throw
`range_error` when `ro<0 || ro>=row || co<0 || co>=col`, otherwise
return `m[ro*col+co]` (the unchecked vector access is modelled with a
default value; the well-formedness theorem below shows the index is in
range). -/
def matrix_entry {R : Type} [Inhabited R] (M : gmatrix R) (ro co : Int) :
    Except String R :=
  if ro < 0 ∨ ro ≥ M.row ∨ co < 0 ∨ co ≥ M.col then
    .error "matrix::operator(): index out of range"
  else
    .ok (M.m.getD (ro * M.col + co).toNat default)

/-- An archive node as far as de-duplication is concerned (archive.h /
archive.cpp): whether it caches an expression and the address of that
expression's node (`e.bp`). -/
structure archive_node_model where
  has_expression : Bool
  bp : Nat
deriving DecidableEq

/-- The archive's tables relevant here: the atom table and the node
table (archive.cpp). -/
structure archive_model where
  atoms : List String
  nodes : List archive_node_model

/-- Embedding of `archive::get_node` (archive.cpp lines 67-74): throw
`range_error` when `id >= nodes.size()`, else return `nodes[id]`. -/
def get_node (ar : archive_model) (id : Nat) : Except String archive_node_model :=
  if h : id ≥ ar.nodes.length then
    .error "archive::get_node(): archive node ID out of range"
  else
    .ok (ar.nodes.get ⟨id, by omega⟩)

/-- Embedding of `archive::unatomize` (archive.cpp lines 309-316): throw
`range_error` when `id >= atoms.size()`, else return `atoms[id]`. -/
def unatomize (ar : archive_model) (id : Nat) : Except String String :=
  if h : id ≥ ar.atoms.length then
    .error "archive::unatomizee(): atom ID out of range"
  else
    .ok (ar.atoms.get ⟨id, by omega⟩)

/-- Claim C4: `matrix::operator()` throws `range_error` exactly on
out-of-range indices and otherwise returns the stored element
`m[ro*col+co]` (a valid vector index when the matrix is well-formed);
`archive::get_node` and `archive::unatomize` throw `range_error` exactly
when the id reaches past the node (resp. atom) table and otherwise
return the stored entry. -/
theorem range_checked_access {R : Type} [Inhabited R] (M : gmatrix R)
    (ro co : Int) (ar : archive_model) (nid aid : Nat) :
    ((∃ e, matrix_entry M ro co = .error e) ↔
      (ro < 0 ∨ ro ≥ M.row ∨ co < 0 ∨ co ≥ M.col)) ∧
    (M.m.length = (M.row * M.col).toNat →
      ¬(ro < 0 ∨ ro ≥ M.row ∨ co < 0 ∨ co ≥ M.col) →
      ∃ h : (ro * M.col + co).toNat < M.m.length,
        matrix_entry M ro co = .ok (M.m.get ⟨(ro * M.col + co).toNat, h⟩)) ∧
    ((∃ e, get_node ar nid = .error e) ↔ nid ≥ ar.nodes.length) ∧
    (∀ h : nid < ar.nodes.length, get_node ar nid = .ok (ar.nodes.get ⟨nid, h⟩)) ∧
    ((∃ e, unatomize ar aid = .error e) ↔ aid ≥ ar.atoms.length) ∧
    (∀ h : aid < ar.atoms.length, unatomize ar aid = .ok (ar.atoms.get ⟨aid, h⟩)) := by
  refine ⟨?_, ?_, ?_, ?_, ?_, ?_⟩
  · constructor
    · intro ⟨e, he⟩
      by_contra hin
      rw [matrix_entry, if_neg hin] at he
      exact Except.noConfusion he
    · intro hout
      exact ⟨_, by rw [matrix_entry, if_pos hout]⟩
  · intro hlen hin
    push_neg at hin
    obtain ⟨h1, h2, h3, h4⟩ := hin
    have hcolpos : (0 : Int) < M.col := by omega
    have hidx : ro * M.col + co < M.row * M.col := by
      have hstep : ro * M.col ≤ (M.row - 1) * M.col :=
        mul_le_mul_of_nonneg_right (by omega) (by omega)
      nlinarith
    have hnn : (0 : Int) ≤ ro * M.col + co := by positivity
    have hfit : (ro * M.col + co).toNat < M.m.length := by
      rw [hlen]; omega
    refine ⟨hfit, ?_⟩
    rw [matrix_entry, if_neg (by push_neg; exact ⟨h1, h2, h3, h4⟩)]
    congr 1
    exact List.getD_eq_get M.m default hfit
  · constructor
    · intro ⟨e, he⟩
      by_contra hlt
      rw [get_node, dif_neg hlt] at he
      exact Except.noConfusion he
    · intro hge
      exact ⟨_, by rw [get_node, dif_pos hge]⟩
  · intro h
    rw [get_node, dif_neg (by omega)]
  · constructor
    · intro ⟨e, he⟩
      by_contra hlt
      rw [unatomize, dif_neg hlt] at he
      exact Except.noConfusion he
    · intro hge
      exact ⟨_, by rw [unatomize, dif_pos hge]⟩
  · intro h
    rw [unatomize, dif_neg (by omega)]

/-- Witness for C4 at a concrete 2-by-2 matrix and a concrete archive:
an in-bounds access returns the stored element and an out-of-bounds node
id is rejected. -/
theorem range_checked_access_witness :
    (∃ h : ((1 : Int) * 2 + 0).toNat < ([10, 20, 30, 40] : List Nat).length,
      matrix_entry (⟨2, 2, [10, 20, 30, 40]⟩ : gmatrix Nat) 1 0 =
        .ok (([10, 20, 30, 40] : List Nat).get ⟨((1 : Int) * 2 + 0).toNat, h⟩)) ∧
    (∃ e, get_node ⟨[], [⟨true, 5⟩]⟩ 1 = .error e) := by
  constructor
  · exact (range_checked_access (⟨2, 2, [10, 20, 30, 40]⟩ : gmatrix Nat) 1 0
      ⟨[], []⟩ 0 0).2.1 (by decide) (by decide)
  · exact ((range_checked_access (⟨1, 1, [0]⟩ : gmatrix Nat) 0 0
      ⟨[], [⟨true, 5⟩]⟩ 1 0).2.2.1).mpr (by decide)

/-! ## Archive node de-duplication (archive.cpp, add_node / has_same_ex_as) -/

/-- Embedding of `archive_node::has_same_ex_as` (archive.cpp lines
350-355): false unless both nodes cache an expression, otherwise
expression-pointer equality `e.bp == other.e.bp`. -/
def has_same_ex_as (n other : archive_node_model) : Bool :=
  if !n.has_expression || !other.has_expression then false
  else n.bp == other.bp

/-- Embedding of `archive::add_node` (archive.cpp lines 50-64): scan the
node table for a node holding the pointer-identical expression and
return its id; otherwise append the node and return the fresh id. -/
def add_node (nodes : List archive_node_model) (n : archive_node_model) :
    Nat × List archive_node_model :=
  match nodes.findIdx? (fun i => has_same_ex_as i n) with
  | some id => (id, nodes)
  | none => (nodes.length, nodes ++ [n])

/-- The de-duplication invariant: no two entries of the node table hold
the same expression pointer (pairwise `has_same_ex_as` fails). -/
def nodes_dedup (nodes : List archive_node_model) : Prop :=
  List.Pairwise (fun a b => has_same_ex_as a b = false) nodes

theorem has_same_ex_as_symm (a b : archive_node_model) :
    has_same_ex_as a b = has_same_ex_as b a := by
  simp only [has_same_ex_as]
  rcases a with ⟨ha, pa⟩
  rcases b with ⟨hb, pb⟩
  cases ha <;> cases hb <;> simp [Bool.or_comm, BEq.comm]

theorem add_node_preserves_dedup (nodes : List archive_node_model)
    (n : archive_node_model) (h : nodes_dedup nodes) :
    nodes_dedup (add_node nodes n).2 := by
  unfold add_node
  cases hf : nodes.findIdx? (fun i => has_same_ex_as i n) with
  | some id => exact h
  | none =>
    simp only [nodes_dedup, List.pairwise_append]
    refine ⟨h, List.pairwise_singleton _ _, ?_⟩
    intro a ha b hb
    have hall := List.findIdx?_eq_none_iff.mp hf
    have := hall a ha
    simp only [List.mem_singleton] at hb
    subst hb
    simpa using this

/-- Claim C6: `add_node` returns the id of an already-stored node
whenever some stored node holds the pointer-identical expression
(leaving the table unchanged), and consequently, after any sequence of
`add_node` calls starting from an empty archive, the node table holds at
most one entry per expression pointer. -/
theorem add_node_dedup (nodes : List archive_node_model) (n : archive_node_model)
    (inputs : List archive_node_model) :
    ((∃ m ∈ nodes, has_same_ex_as m n = true) →
      (add_node nodes n).2 = nodes ∧
      ∃ h : (add_node nodes n).1 < nodes.length,
        has_same_ex_as (nodes.get ⟨(add_node nodes n).1, h⟩) n = true) ∧
    (nodes_dedup nodes → nodes_dedup (add_node nodes n).2) ∧
    nodes_dedup (List.foldl (fun ns m => (add_node ns m).2) [] inputs) := by
  refine ⟨?_, add_node_preserves_dedup nodes n, ?_⟩
  · intro ⟨m, hm, hsame⟩
    have hex : ∃ x, x ∈ nodes ∧ (fun i => has_same_ex_as i n) x := ⟨m, hm, hsame⟩
    have hsome := List.findIdx?_eq_some_of_exists hex
    have hget := List.findIdx?_eq_some_iff_getElem.mp hsome
    obtain ⟨hlt, hp, _⟩ := hget
    unfold add_node
    rw [hsome]
    exact ⟨rfl, hlt, hp⟩
  · have gen : ∀ (l acc : List archive_node_model), nodes_dedup acc →
        nodes_dedup (List.foldl (fun ns m => (add_node ns m).2) acc l) := by
      intro l
      induction l with
      | nil => intro acc h; exact h
      | cons x xs ih =>
        intro acc h
        exact ih _ (add_node_preserves_dedup acc x h)
    exact gen inputs [] (List.Pairwise.nil)

/-- Witness for C6: adding a node whose expression pointer is already in
the table returns the existing id 0 and leaves the table unchanged. -/
theorem add_node_dedup_witness :
    (add_node [⟨true, 7⟩] ⟨true, 7⟩).2 = [⟨true, 7⟩] ∧
    nodes_dedup (add_node [⟨true, 7⟩] ⟨true, 7⟩).2 := by
  constructor
  · exact ((add_node_dedup [⟨true, 7⟩] ⟨true, 7⟩ []).1
      ⟨⟨true, 7⟩, by decide, by decide⟩).1
  · exact (add_node_dedup [⟨true, 7⟩] ⟨true, 7⟩ []).2.1
      (List.pairwise_singleton _ _)

/-! ## Recursion-limit checks in eval (container.pl, matrix.cpp)

The value of `max_recursion_level` is defined outside the available
sources, so it is carried as a parameter `mrl`; the C++ `int` level is
modelled as `Int`.  Child evaluation (`ex::eval` etc. on the elements)
is abstracted as a total function, so the only error that these
functions can produce is the one raised by their own level check. -/

/-- Embedding of the container `evalchildren` (container.pl lines
707-723): at `level == 1` return the stored sequence, at
`level == -max_recursion_level` throw a runtime error, otherwise
evaluate every child at `level - 1`. -/
def evalchildren {E : Type} (mrl : Nat) (seq : List E)
    (child_eval : Int → E → E) (level : Int) : Except String (List E) :=
  if level = 1 then .ok seq
  else if level = -(mrl : Int) then .error "max recursion level reached"
  else .ok (seq.map (child_eval (level - 1)))

/-- Embedding of the container `evalfchildren` (container.pl lines
725-741); identical level handling with `evalf` on the children. -/
def evalfchildren {E : Type} (mrl : Nat) (seq : List E)
    (child_evalf : Int → E → E) (level : Int) : Except String (List E) :=
  if level = 1 then .ok seq
  else if level = -(mrl : Int) then .error "max recursion level reached"
  else .ok (seq.map (child_evalf (level - 1)))

/-- Embedding of the container `normalchildren` (container.pl lines
743-759); identical level handling with `normal` on the children. -/
def normalchildren {E : Type} (mrl : Nat) (seq : List E)
    (child_normal : Int → E → E) (level : Int) : Except String (List E) :=
  if level = 1 then .ok seq
  else if level = -(mrl : Int) then .error "max recursion level reached"
  else .ok (seq.map (child_normal (level - 1)))

/-- Embedding of the container `eval` (container.pl lines 552-558): at
`level == 1` return the held container itself, otherwise rebuild from
`evalchildren`. -/
def container_eval {E : Type} (mrl : Nat) (seq : List E)
    (child_eval : Int → E → E) (level : Int) : Except String (List E) :=
  if level = 1 then .ok seq
  else evalchildren mrl seq child_eval level

/-- Embedding of `matrix::eval` (matrix.cpp lines 279-304): at
`level == 1` with the evaluated flag set return the matrix itself; at
`level == -max_recursion_level` throw; otherwise evaluate the entries at
`level - 1` (the result is represented by its entry vector). -/
def matrix_eval {E : Type} (mrl : Nat) (m : List E) (evaluated : Bool)
    (child_eval : Int → E → E) (level : Int) : Except String (List E) :=
  if level = 1 ∧ evaluated then .ok m
  else if level = -(mrl : Int) then .error "matrix::eval(): recursion limit exceeded"
  else .ok (m.map (child_eval (level - 1)))

/-- Claim C5: for containers and matrices, `eval` and the child helpers
`evalchildren`/`evalfchildren`/`normalchildren` raise a runtime error
exactly when `level = -max_recursion_level`; in particular every level
strictly between `-max_recursion_level` and 1 passes the level check. -/
theorem eval_recursion_limit {E : Type} (mrl : Nat) (seq m : List E)
    (evaluated : Bool) (ce cf cn : Int → E → E) (level : Int) :
    ((∃ e, container_eval mrl seq ce level = .error e) ↔ level = -(mrl : Int)) ∧
    ((∃ e, evalchildren mrl seq ce level = .error e) ↔ level = -(mrl : Int)) ∧
    ((∃ e, evalfchildren mrl seq cf level = .error e) ↔ level = -(mrl : Int)) ∧
    ((∃ e, normalchildren mrl seq cn level = .error e) ↔ level = -(mrl : Int)) ∧
    ((∃ e, matrix_eval mrl m evaluated ce level = .error e) ↔ level = -(mrl : Int)) := by
  have hne1 : -(mrl : Int) ≠ 1 := by omega
  refine ⟨?_, ?_, ?_, ?_, ?_⟩
  · unfold container_eval evalchildren
    by_cases h2 : level = -(mrl : Int)
    · subst h2; simp [hne1]
    · by_cases h1 : level = 1 <;> simp [h1, h2] <;> omega
  · unfold evalchildren
    by_cases h2 : level = -(mrl : Int)
    · subst h2; simp [hne1]
    · by_cases h1 : level = 1 <;> simp [h1, h2] <;> omega
  · unfold evalfchildren
    by_cases h2 : level = -(mrl : Int)
    · subst h2; simp [hne1]
    · by_cases h1 : level = 1 <;> simp [h1, h2] <;> omega
  · unfold normalchildren
    by_cases h2 : level = -(mrl : Int)
    · subst h2; simp [hne1]
    · by_cases h1 : level = 1 <;> simp [h1, h2] <;> omega
  · unfold matrix_eval
    by_cases h2 : level = -(mrl : Int)
    · subst h2; simp [hne1]
    · by_cases h1 : level = 1 ∧ evaluated <;> simp [h1, h2] <;> omega

/-! ## Substitution on containers (container.pl, subs / subschildren)

Children are identified by their node pointer (`are_ex_trivially_equal`
is pointer equality of the handles), so a child is modelled by a node
pointer and the substitution as a function on pointers; `σ c = c` is
exactly "the substitution returned the identical expression". -/

/-- Embedding of `are_ex_trivially_equal`: pointer equality of two
handles. -/
def are_ex_trivially_equal (a b : Nat) : Bool := a == b

/-- Embedding of the container `subschildren` (container.pl lines
783-819): scan for the first child changed by the substitution; if none
changed return null (`none`); otherwise return a fresh sequence made of
the unchanged prefix, the changed child, and the substituted rest. -/
def subschildren (seq : List Nat) (σ : Nat → Nat) : Option (List Nat) :=
  match seq with
  | [] => none
  | c :: cs =>
    let subsed := σ c
    if are_ex_trivially_equal c subsed then
      match subschildren cs σ with
      | none => none
      | some s => some (c :: s)
    else
      some (subsed :: cs.map σ)

/-- Result of the container `subs` (container.pl lines 579-586): either
the original node itself (`return *this`, no new object) or a container
rebuilt from a fresh child sequence. -/
inductive subs_result where
  | same
  | rebuilt (s : List Nat)
deriving DecidableEq

/-- Embedding of the container `subs`: return the original node when
`subschildren` comes back null, else rebuild. -/
def container_subs (seq : List Nat) (σ : Nat → Nat) : subs_result :=
  match subschildren seq σ with
  | none => .same
  | some s => .rebuilt s

theorem subschildren_none_iff (seq : List Nat) (σ : Nat → Nat) :
    subschildren seq σ = none ↔ ∀ c ∈ seq, σ c = c := by
  induction seq with
  | nil => simp [subschildren]
  | cons c cs ih =>
    simp only [subschildren, are_ex_trivially_equal, beq_iff_eq]
    by_cases hc : c = σ c
    · rw [if_pos hc]
      cases hcs : subschildren cs σ with
      | none =>
        simp only [List.mem_cons]
        constructor
        · intro _ x hx
          rcases hx with h | h
          · rw [h]; exact hc.symm
          · exact (ih.mp hcs) x h
        · intro _; trivial
      | some s =>
        simp only [List.mem_cons]
        constructor
        · intro h; exact Option.noConfusion h
        · intro hall
          have h2 : subschildren cs σ = none := ih.mpr (fun x hx => hall x (Or.inr hx))
          rw [h2] at hcs
          exact Option.noConfusion hcs
    · rw [if_neg hc]
      constructor
      · intro h; exact Option.noConfusion h
      · intro hall
        exact absurd (hall c (List.mem_cons_self c cs)).symm hc

theorem subschildren_some (seq : List Nat) (σ : Nat → Nat) (s : List Nat)
    (h : subschildren seq σ = some s) :
    s = seq.map σ ∧ ∃ c ∈ seq, σ c ≠ c := by
  induction seq generalizing s with
  | nil => exact Option.noConfusion h
  | cons c cs ih =>
    simp only [subschildren, are_ex_trivially_equal, beq_iff_eq] at h
    by_cases hc : c = σ c
    · rw [if_pos hc] at h
      cases hcs : subschildren cs σ with
      | none => rw [hcs] at h; exact Option.noConfusion h
      | some s2 =>
        rw [hcs] at h
        have hs : s = c :: s2 := by
          injection h with h2; rw [← h2]
        obtain ⟨hmap, x, hx, hchg⟩ := ih s2 hcs
        subst hs
        refine ⟨?_, x, List.mem_cons_of_mem c hx, hchg⟩
        simp only [List.map_cons, hmap, ← hc]
    · rw [if_neg hc] at h
      have hs : s = σ c :: cs.map σ := by
        injection h with h2; rw [← h2]
      subst hs
      exact ⟨by simp, c, List.mem_cons_self c cs, fun he => hc he.symm⟩

/-- Claim C9: the container `subs` returns the original node itself
(no rebuilt copy) exactly when the substitution changes no child, and
when it does rebuild, the new sequence consists of the substituted
children and at least one child actually changed. -/
theorem container_subs_frame (seq : List Nat) (σ : Nat → Nat) :
    (container_subs seq σ = .same ↔ ∀ c ∈ seq, σ c = c) ∧
    (∀ s, container_subs seq σ = .rebuilt s →
      s = seq.map σ ∧ ∃ c ∈ seq, σ c ≠ c) := by
  constructor
  · unfold container_subs
    cases hsc : subschildren seq σ with
    | none => simpa using (subschildren_none_iff seq σ).mp hsc
    | some s =>
      simp only []
      constructor
      · intro h; exact subs_result.noConfusion h
      · intro hall
        rw [(subschildren_none_iff seq σ).mpr hall] at hsc
        exact Option.noConfusion hsc
  · intro s hre
    unfold container_subs at hre
    cases hsc : subschildren seq σ with
    | none => rw [hsc] at hre; exact subs_result.noConfusion hre
    | some s2 =>
      rw [hsc] at hre
      have : s2 = s := by injection hre
      subst this
      exact subschildren_some seq σ s2 hsc

/-- Witness for C9: an identity substitution on a two-child container
returns the original node; changing one child rebuilds the mapped
sequence. -/
theorem container_subs_frame_witness :
    container_subs [5, 6] id = .same ∧
    ([7, 6] = ([5, 6].map (fun c => if c = 5 then 7 else c)) ∧
      ∃ c ∈ [5, 6], (fun c => if c = 5 then 7 else c) c ≠ c) := by
  constructor
  · exact (container_subs_frame [5, 6] id).1.mpr (by decide)
  · exact (container_subs_frame [5, 6] (fun c => if c = 5 then 7 else c)).2
      [7, 6] (by decide)

/-! ## Printing and parenthesization (print.cpp, container.pl)

A subexpression is modelled by its print function `Nat → String`
(context precedence to output), coefficients carry their numeric value
for the sign tests in `add::print` / `mul::print`.  The class-static
`precedence` values are defined outside the available sources, so each
printer carries its precedence as a parameter. -/

/-- Embedding of `power::print` (print.cpp lines 80-92). -/
def power_print (prec : Nat) (basis exponent : Nat → String)
    (upper : Nat) : String :=
  (if prec ≤ upper then "(" else "")
  ++ basis prec ++ "^" ++ exponent prec
  ++ (if prec ≤ upper then ")" else "")

/-- The pair loop of `expairseq::printseq` (print.cpp lines 156-163):
print the pairs separated by `delim`, no trailing delimiter.  The source
assumes a nonempty sequence. -/
def printseq_loop (this_prec : Nat) (delim : String) :
    List (Nat → String) → String
  | [] => ""
  | [p] => p this_prec
  | p :: ps => p this_prec ++ delim ++ printseq_loop this_prec delim ps

/-- Embedding of `expairseq::printseq` (print.cpp lines 152-168): wrap
iff `this_precedence <= upper_precedence`, print the pairs, then the
overall coefficient when it differs from the default. -/
def expairseq_printseq (this_prec : Nat) (delim : String)
    (pairs : List (Nat → String)) (oc_is_default : Bool) (oc_str : String)
    (upper : Nat) : String :=
  (if this_prec ≤ upper then "(" else "")
  ++ printseq_loop this_prec delim pairs
  ++ (if !oc_is_default then delim ++ oc_str else "")
  ++ (if this_prec ≤ upper then ")" else "")

/-- A sum term for `add::print`: the numeric coefficient (for the sign
and ±1 tests) together with the print functions of the coefficient and
of the rest part. -/
structure add_term where
  coeff : Int
  coeff_print : Nat → String
  rest_print : Nat → String

/-- The term loop of `add::print` (print.cpp lines 197-213): a leading
`+` for every non-first positive-coefficient term, `-` for coefficient
-1, `c*` for other coefficients different from 1, then the rest printed
at context precedence 0 (`os << cit->rest`). -/
def add_print_loop (prec : Nat) : Bool → List add_term → String
  | _, [] => ""
  | first, t :: ts =>
    (if !first ∧ t.coeff > 0 then "+" else "")
    ++ (if t.coeff = -1 then "-"
        else if t.coeff ≠ 1 then t.coeff_print prec ++ "*" else "")
    ++ t.rest_print 0
    ++ add_print_loop prec false ts

/-- Embedding of `add::print` (print.cpp lines 193-219): wrap iff
`precedence <= upper_precedence`, print the terms, then the overall
coefficient with a `+` when positive. -/
def add_print (prec : Nat) (seq : List add_term) (oc : Int)
    (oc_str : String) (upper : Nat) : String :=
  (if prec ≤ upper then "(" else "")
  ++ add_print_loop prec true seq
  ++ (if ¬oc = 0 then (if oc > 0 then "+" else "") ++ oc_str else "")
  ++ (if prec ≤ upper then ")" else "")

/-- The factor loop of `mul::print` (print.cpp lines 242-249): `*`
before every non-first factor, each factor printed at the product's own
precedence (`recombine_pair_to_ex(*cit).print(os,precedence)`). -/
def mul_print_loop (prec : Nat) : Bool → List (Nat → String) → String
  | _, [] => ""
  | first, f :: fs =>
    (if !first then "*" else "") ++ f prec ++ mul_print_loop prec false fs

/-- Embedding of `mul::print` (print.cpp lines 233-251): wrap iff
`precedence <= upper_precedence`, print the overall coefficient first
when it is not 1, then the factors. -/
def mul_print (prec : Nat) (oc_is_one : Bool) (oc_print : Nat → String)
    (seq : List (Nat → String)) (upper : Nat) : String :=
  (if prec ≤ upper then "(" else "")
  ++ (if !oc_is_one then oc_print prec else "")
  ++ mul_print_loop prec oc_is_one seq
  ++ (if prec ≤ upper then ")" else "")

/-- The relational operators (relational.h), as matched by
`relational::print`. -/
inductive rel_op where
  | equal | not_equal | less | less_or_equal | greater | greater_or_equal
deriving DecidableEq

/-- The operator text chosen by the switch in `relational::print`
(print.cpp lines 277-298); the `default:` branch is unreachable since
the enumeration is exhaustive. -/
def rel_op_string : rel_op → String
  | .equal => "=="
  | .not_equal => "!="
  | .less => "<"
  | .less_or_equal => "<="
  | .greater => ">"
  | .greater_or_equal => ">="

/-- Embedding of `relational::print` (print.cpp lines 272-301). -/
def relational_print (prec : Nat) (lh rh : Nat → String) (o : rel_op)
    (upper : Nat) : String :=
  (if prec ≤ upper then "(" else "")
  ++ lh prec ++ rel_op_string o ++ rh prec
  ++ (if prec ≤ upper then ")" else "")

/-- Claim C8: each precedence-aware printer (`power::print`,
`expairseq::printseq`, `relational::print`, `add::print`, `mul::print`)
wraps its output in parentheses iff the node's own precedence is at most
the context precedence: relative to any context `u0` that does not
trigger wrapping, the output at context `u` is the bare output wrapped
in parentheses exactly when `prec ≤ u`, and the bare output does not
depend on the context. -/
theorem printers_parenthesize (prec u u0 : Nat) (h0 : ¬prec ≤ u0)
    (basis exponent oc_print lh rh : Nat → String)
    (pairs seqm : List (Nat → String)) (seqa : List add_term)
    (oc_is_default oc_is_one : Bool) (oc : Int) (oc_str delim : String)
    (o : rel_op) :
    (power_print prec basis exponent u =
      if prec ≤ u then "(" ++ power_print prec basis exponent u0 ++ ")"
      else power_print prec basis exponent u0) ∧
    (expairseq_printseq prec delim pairs oc_is_default oc_str u =
      if prec ≤ u then
        "(" ++ expairseq_printseq prec delim pairs oc_is_default oc_str u0 ++ ")"
      else expairseq_printseq prec delim pairs oc_is_default oc_str u0) ∧
    (relational_print prec lh rh o u =
      if prec ≤ u then "(" ++ relational_print prec lh rh o u0 ++ ")"
      else relational_print prec lh rh o u0) ∧
    (add_print prec seqa oc oc_str u =
      if prec ≤ u then "(" ++ add_print prec seqa oc oc_str u0 ++ ")"
      else add_print prec seqa oc oc_str u0) ∧
    (mul_print prec oc_is_one oc_print seqm u =
      if prec ≤ u then "(" ++ mul_print prec oc_is_one oc_print seqm u0 ++ ")"
      else mul_print prec oc_is_one oc_print seqm u0) := by
  refine ⟨?_, ?_, ?_, ?_, ?_⟩ <;>
    by_cases hu : prec ≤ u <;>
      simp [power_print, expairseq_printseq, relational_print, add_print,
        mul_print, hu, h0, String.append_assoc]

/-- Witness for C8: the power printer at matching precedences. -/
theorem printers_parenthesize_witness :
    power_print 60 (fun _ => "x") (fun _ => "2") 60 =
      "(" ++ power_print 60 (fun _ => "x") (fun _ => "2") 0 ++ ")" := by
  have h := (printers_parenthesize 60 60 0 (by decide)
    (fun _ => "x") (fun _ => "2") (fun _ => "") (fun _ => "") (fun _ => "")
    [] [] [] false false 0 "" "" rel_op.equal).1
  simpa using h

/-! ## Archive stream header and version check (archive.cpp, operator>>)

The constants `ARCHIVE_VERSION` and `ARCHIVE_AGE` are defined outside
the available sources (archive.h), so they are carried as parameters
`av` and `age`; the C++ subtraction `ARCHIVE_VERSION - ARCHIVE_AGE` is
on `unsigned`, faithful to `Nat` subtraction when `age ≤ av`. -/

/-- Embedding of the header part of `operator>>(istream, archive)`
(archive.cpp lines 256-265): read four magic bytes and require
`G A R C` (71 65 82 67), read the version, and reject it when
`version > ARCHIVE_VERSION || version < ARCHIVE_VERSION - ARCHIVE_AGE`;
otherwise hand the version and the remaining stream to the table
reader. -/
def read_archive_header (av age : Nat) (s : List Nat) :
    Except String (Nat × List Nat) :=
  match s with
  | c1 :: c2 :: c3 :: c4 :: rest =>
    if c1 ≠ 71 ∨ c2 ≠ 65 ∨ c3 ≠ 82 ∨ c4 ≠ 67 then
      .error "not a GiNaC archive (signature not found)"
    else
      match read_unsigned rest with
      | none => .error "premature end of stream"
      | some (version, rest2) =>
        if version > av ∨ version < av - age then
          .error "archive version cannot be read by this GiNaC library"
        else
          .ok (version, rest2)
  | _ => .error "premature end of stream"

/-- Claim C7: after the four magic bytes have been verified, reading an
archive stream rejects exactly the versions outside the closed interval
`[ARCHIVE_VERSION - ARCHIVE_AGE, ARCHIVE_VERSION]`, and accepts every
version inside it (returning that version). -/
theorem archive_version_check (av age v : Nat) (rest : List Nat)
    (hage : age ≤ av) (hv : v < 2 ^ 32) :
    ((∃ e, read_archive_header av age
        ([71, 65, 82, 67] ++ write_unsigned v ++ rest) = .error e) ↔
      (v > av ∨ v < av - age)) ∧
    (av - age ≤ v → v ≤ av →
      read_archive_header av age
        ([71, 65, 82, 67] ++ write_unsigned v ++ rest) = .ok (v, rest)) := by
  have hread : read_unsigned (write_unsigned v ++ rest) = some (v, rest) := by
    have h := read_unsigned_aux_write v 0 0 rest (by norm_num) (by simpa using hv)
    simpa [read_unsigned] using h
  have hmagic : ¬((71 : Nat) ≠ 71 ∨ (65 : Nat) ≠ 65 ∨ (82 : Nat) ≠ 82 ∨
      (67 : Nat) ≠ 67) := by omega
  constructor
  · constructor
    · intro ⟨e, he⟩
      by_contra hin
      simp only [read_archive_header, List.cons_append, List.nil_append,
        if_neg hmagic, hread, if_neg hin] at he
      exact Except.noConfusion he
    · intro hout
      refine ⟨"archive version cannot be read by this GiNaC library", ?_⟩
      simp only [read_archive_header, List.cons_append, List.nil_append,
        if_neg hmagic, hread, if_pos hout]
  · intro h1 h2
    simp only [read_archive_header, List.cons_append, List.nil_append,
      if_neg hmagic, hread, if_neg (by omega : ¬(v > av ∨ v < av - age))]

/-- Witness for C7 with version 5, current version 6, age 2: inside the
supported interval, the header is accepted. -/
theorem archive_version_check_witness :
    read_archive_header 6 2 ([71, 65, 82, 67] ++ write_unsigned 5 ++ []) =
      .ok (5, []) :=
  (archive_version_check 6 2 5 [] (by norm_num) (by norm_num)).2
    (by norm_num) (by norm_num)

/-! ## Determinants of 3-by-3 symbolic matrices (matrix.cpp)

The nine entries are arbitrary elements of a commutative ring (in
particular nine distinct symbols generate the polynomial ring, so a ring
identity holding for all entries is exactly an identity of the symbolic
expressions whose `normal` form difference is zero); the matrix is its
entry function on `int` indices. -/

/-- One pass of the inner `j` loop of `permutation_sign` (matrix.cpp
lines 499-516) for the element at position `i`: compare it against every
later element, swapping whenever `*i > *j` and flipping the sign, and
detect equal elements (sign 0, returned as `none`).  Returns the
sequence of later positions after the pass together with the sign
factor. -/
def perm_sign_inner : Int → List Int → Option (List Int × Int)
  | _, [] => some ([], 1)
  | x, y :: ys =>
    if x = y then none
    else if x > y then
      match perm_sign_inner y ys with
      | none => none
      | some (ys2, sg) => some (x :: ys2, -sg)
    else
      match perm_sign_inner x ys with
      | none => none
      | some (ys2, sg) => some (y :: ys2, sg)

/-- The outer `i` loop of `permutation_sign`: run the inner pass for
each position from left to right, multiplying the sign factors; the
loop stops at the last position.  The counter equals the number of
positions still to process (each inner pass keeps the length of the
remaining suffix, so `s.length` iterations always suffice). -/
def perm_sign_outer : Nat → List Int → Option Int
  | 0, _ => some 1
  | _ + 1, [] => some 1
  | _ + 1, [_] => some 1
  | fuel + 1, x :: y :: ys =>
    match perm_sign_inner x (y :: ys) with
    | none => none
    | some (rest, sg) =>
      match perm_sign_outer fuel rest with
      | none => none
      | some sg2 => some (sg * sg2)

/-- Embedding of `permutation_sign` (matrix.cpp lines 499-516): 0 for
sequences shorter than 2 and for sequences with repeated entries,
otherwise the sign of the sorting permutation accumulated through
adjacent-free swaps. -/
def permutation_sign (s : List Int) : Int :=
  if s.length < 2 then 0
  else
    match perm_sign_outer s.length s with
    | none => 0
    | some sg => sg

/-- Helper of `swap`-and-reverse inside `next_permutation`: on the
ascending reversed suffix, replace the first element greater than `x`
by `x` and return that element. -/
def swap_first_greater (x : Int) : List Int → Option (Int × List Int)
  | [] => none
  | y :: ys =>
    if x < y then some (y, x :: ys)
    else
      match swap_first_greater x ys with
      | none => none
      | some (z, zs) => some (z, y :: zs)

/-- Embedding of `std::next_permutation` on a sequence: advance the
suffix if it has a successor, otherwise (the suffix is non-increasing)
swap the head with the rightmost larger suffix element and take the
reversed (ascending) suffix; `none` when the whole sequence is the last
permutation. -/
def next_permutation : List Int → Option (List Int)
  | [] => none
  | x :: xs =>
    match next_permutation xs with
    | some xs2 => some (x :: xs2)
    | none =>
      match swap_first_greater x xs.reverse with
      | none => none
      | some (y, rest) => some (y :: rest)

/-- The factor product `M(sigma[0],0) * M(sigma[1],1) * ...` of one term
of `determinant_symbolic_perm` (matrix.cpp lines 533-536). -/
def perm_term_aux {R : Type} [CommRing R] (M : Int → Int → R) (i : Int) :
    List Int → R
  | [] => 1
  | s :: ss => M s i * perm_term_aux M (i + 1) ss

/-- The do-while loop of `determinant_symbolic_perm` (matrix.cpp lines
533-537): add `permutation_sign(sigma) * term` for the current
permutation and continue while `next_permutation` succeeds.  `fuel`
bounds the number of iterations; the callers pass enough for the loop to
run to completion. -/
def det_perm_loop {R : Type} [CommRing R] (M : Int → Int → R)
    (sigma : List Int) : Nat → R
  | 0 => 0
  | fuel + 1 =>
    let term := perm_term_aux M 0 sigma
    let acc := (permutation_sign sigma : R) * term
    match next_permutation sigma with
    | none => acc
    | some sigma2 => acc + det_perm_loop M sigma2 fuel

/-- Embedding of `determinant_symbolic_perm` (matrix.cpp lines 520-540)
for a 3-by-3 matrix: `sigma` starts as `[0, 1, 2]` and the loop visits
all 6 permutations. -/
def determinant_symbolic_perm3 {R : Type} [CommRing R]
    (M : Int → Int → R) : R :=
  det_perm_loop M [0, 1, 2] 6

/-- Embedding of the 3-by-3 branch of `determinant_symbolic_minor`
(matrix.cpp lines 556-559), the explicit Laplace-expansion formula the
source uses for 3-by-3 matrices. -/
def determinant_symbolic_minor3 {R : Type} [CommRing R]
    (M : Int → Int → R) : R :=
  (M 2 1 * M 0 2 - M 2 2 * M 0 1) * M 1 0 +
  (M 1 2 * M 0 1 - M 1 1 * M 0 2) * M 2 0 +
  (M 2 2 * M 1 1 - M 2 1 * M 1 2) * M 0 0

/-- The Leibniz-formula expansion of the 3-by-3 determinant, written
from the specification (the reference the two algorithms are compared
against). -/
def leibniz_det3 {R : Type} [CommRing R] (M : Int → Int → R) : R :=
  M 0 0 * (M 1 1 * M 2 2 - M 1 2 * M 2 1)
  - M 0 1 * (M 1 0 * M 2 2 - M 1 2 * M 2 0)
  + M 0 2 * (M 1 0 * M 2 1 - M 1 1 * M 2 0)

/-- Claim C1: for every 3-by-3 matrix over a commutative ring (hence in
particular for nine distinct symbols, where equality is an identity of
polynomials and the `normal` form of the difference is zero), the
Laplace cofactor expansion and the permutation sum both equal the
Leibniz-formula expansion, so their difference is zero. -/
theorem determinant3_algorithms_agree {R : Type} [CommRing R]
    (M : Int → Int → R) :
    determinant_symbolic_minor3 M = leibniz_det3 M ∧
    determinant_symbolic_perm3 M = leibniz_det3 M ∧
    determinant_symbolic_minor3 M - determinant_symbolic_perm3 M = 0 := by
  have hminor : determinant_symbolic_minor3 M = leibniz_det3 M := by
    unfold determinant_symbolic_minor3 leibniz_det3
    ring
  have hperm : determinant_symbolic_perm3 M = leibniz_det3 M := by
    have h1 : next_permutation [0, 1, 2] = some [0, 2, 1] := by decide
    have h2 : next_permutation [0, 2, 1] = some [1, 0, 2] := by decide
    have h3 : next_permutation [1, 0, 2] = some [1, 2, 0] := by decide
    have h4 : next_permutation [1, 2, 0] = some [2, 0, 1] := by decide
    have h5 : next_permutation [2, 0, 1] = some [2, 1, 0] := by decide
    have h6 : next_permutation [2, 1, 0] = none := by decide
    have g1 : permutation_sign [0, 1, 2] = 1 := by decide
    have g2 : permutation_sign [0, 2, 1] = -1 := by decide
    have g3 : permutation_sign [1, 0, 2] = -1 := by decide
    have g4 : permutation_sign [1, 2, 0] = 1 := by decide
    have g5 : permutation_sign [2, 0, 1] = 1 := by decide
    have g6 : permutation_sign [2, 1, 0] = -1 := by decide
    unfold determinant_symbolic_perm3 leibniz_det3
    simp only [det_perm_loop, h1, h2, h3, h4, h5, h6, g1, g2, g3, g4, g5, g6,
      perm_term_aux]
    norm_num
    ring
  exact ⟨hminor, hperm, by rw [hminor, hperm]; ring⟩

/-! ## lsolve and fraction-free elimination (inifcns_nstdsums.cpp, matrix.cpp)

A small expression type `XE` models the `ex` values flowing through
`matrix::fraction_free_elim`: exact rational numbers and symbols, with
the arithmetic operators folding numeric operands immediately (as the
canonicalizing `ex` operators do) and keeping symbolic results as
uninterpreted trees.  Failable operations return `Except String`; an
`.error` models a thrown `runtime_error` (GiNaC's numeric division by
zero throws `overflow_error`, which derives from `runtime_error`).
`normal` is abstracted as a parameter `nf` (on the exact rational values
reached here it is the identity; its symbolic simplification behaviour
is irrelevant to the control flow proved below).  Matrices are flat
row-major lists with the source's 1-based `ffe_get`/`ffe_set`
indexing. -/

/-- Expression values reached by the elimination: exact rationals,
symbols, and uninterpreted compound terms. -/
inductive XE where
  | num (q : Rat)
  | sym (s : String)
  | add (a b : XE)
  | sub (a b : XE)
  | mul (a b : XE)
  | div (a b : XE)
deriving DecidableEq

/-- `ex` subtraction: numeric operands are folded, otherwise the tree is
kept. -/
def xsub : XE → XE → XE
  | .num a, .num b => .num (a - b)
  | a, b => .sub a b

/-- `ex` multiplication: numeric operands are folded, otherwise the tree
is kept. -/
def xmul : XE → XE → XE
  | .num a, .num b => .num (a * b)
  | a, b => .mul a b

/-- `ex` division: numeric division by exact zero throws (an error of
the `runtime_error` family), other numeric operands are folded,
symbolic operands keep the tree. -/
def xdiv : XE → XE → Except String XE
  | .num a, .num b =>
    if b = 0 then .error "division by zero" else .ok (.num (a / b))
  | a, b => .ok (.div a b)

/-- `ex::is_zero` (structural comparison with `exZERO()`): true exactly
for the numeric value 0; a symbol or an unevaluated compound never
compares equal to the numeric zero. -/
def xis_zero : XE → Bool
  | .num q => q == 0
  | _ => false

/-- 1-based element read `ffe_get(r,c)` on a row-major list with `cols`
columns (matrix.cpp lines 740-743). -/
def ffe_get (cols : Nat) (m : List XE) (r c : Nat) : XE :=
  m.getD ((r - 1) * cols + (c - 1)) (.num 0)

/-- 1-based element write `ffe_set(r,c,e)` (matrix.cpp lines 735-738). -/
def ffe_set (cols : Nat) (m : List XE) (r c : Nat) (v : XE) : List XE :=
  m.set ((r - 1) * cols + (c - 1)) v

/-- `matrix::ffe_swap` (matrix.cpp lines 726-733). -/
def ffe_swap (cols : Nat) (m : List XE) (r1 c1 r2 c2 : Nat) : List XE :=
  let tmp := ffe_get cols m r1 c1
  ffe_set cols (ffe_set cols m r1 c1 (ffe_get cols m r2 c2)) r2 c2 tmp

/-- The pivot search of `fraction_free_elim` (matrix.cpp line 774):
`for (p=r; p<=m && a(p,k) is zero; ++p)`, returning the final `p`.  The
`fuel` argument counts the iterations still allowed; the wrapper below
passes `m + 1 - p`, the exact trip count of the C++ loop, which makes
the recursion structural (and the functions kernel-computable) without
changing the computed value. -/
def ffe_find_pivot_loop (nn : Nat) (a : List XE) (k : Nat) :
    Nat → Nat → Nat
  | 0, p => p
  | fuel + 1, p =>
    if xis_zero (ffe_get nn a p k) then ffe_find_pivot_loop nn a k fuel (p + 1)
    else p

/-- The pivot search with its trip count `m + 1 - p` spelled out. -/
def ffe_find_pivot (nn : Nat) (a : List XE) (mm k p : Nat) : Nat :=
  ffe_find_pivot_loop nn a k (mm + 1 - p) p

/-- The row swap of columns `j = k..n` between rows `p` and `r` of `a`
(matrix.cpp lines 778-781); `fuel = n + 1 - j` iterations. -/
def ffe_swap_rows_loop (nn : Nat) (p r : Nat) : Nat → Nat → List XE → List XE
  | 0, _, a => a
  | fuel + 1, j, a => ffe_swap_rows_loop nn p r fuel (j + 1) (ffe_swap nn a p j r j)

/-- The row swap for `j = k..n`. -/
def ffe_swap_rows (nn p r k : Nat) (a : List XE) : List XE :=
  ffe_swap_rows_loop nn p r (nn + 1 - k) k a

/-- The inner `j` loop of the elimination (matrix.cpp lines 787-791):
`a(i,j) := normal((a(r,k)*a(i,j) - a(r,j)*a(i,k)) / divisor)` for
`j = k+1..n`; `fuel = n - k` iterations. -/
def ffe_elim_cols_loop (nf : XE → XE) (nn k r i : Nat) (divisor : XE) :
    Nat → Nat → List XE → Except String (List XE)
  | 0, _, a => .ok a
  | fuel + 1, j, a => do
    let q ← xdiv (xsub (xmul (ffe_get nn a r k) (ffe_get nn a i j))
                       (xmul (ffe_get nn a r j) (ffe_get nn a i k))) divisor
    ffe_elim_cols_loop nf nn k r i divisor fuel (j + 1) (ffe_set nn a i j (nf q))

/-- The inner `j` loop for `j = k+1..n`. -/
def ffe_elim_cols (nf : XE → XE) (nn k r i : Nat) (divisor : XE)
    (a : List XE) : Except String (List XE) :=
  ffe_elim_cols_loop nf nn k r i divisor (nn - k) (k + 1) a

/-- The outer `i` loop of the elimination (matrix.cpp lines 786-796):
for each row `i = r+1..m` update its columns, update the right-hand
side `b(i,1) := normal((a(r,k)*b(i,1) - b(r,1)*a(i,k)) / divisor)`, and
clear `a(i,k)`; `fuel = m - r` iterations. -/
def ffe_elim_rows_loop (nf : XE → XE) (nn k r : Nat) (divisor : XE) :
    Nat → Nat → List XE → List XE → Except String (List XE × List XE)
  | 0, _, a, b => .ok (a, b)
  | fuel + 1, i, a, b => do
    let a2 ← ffe_elim_cols nf nn k r i divisor a
    let bq ← xdiv (xsub (xmul (ffe_get nn a2 r k) (ffe_get 1 b i 1))
                        (xmul (ffe_get 1 b r 1) (ffe_get nn a2 i k))) divisor
    let b2 := ffe_set 1 b i 1 (nf bq)
    let a3 := ffe_set nn a2 i k (.num 0)
    ffe_elim_rows_loop nf nn k r divisor fuel (i + 1) a3 b2

/-- The outer `i` loop for `i = r+1..m`. -/
def ffe_elim_rows (nf : XE → XE) (nn mm k r : Nat) (divisor : XE)
    (a b : List XE) : Except String (List XE × List XE) :=
  ffe_elim_rows_loop nf nn k r divisor (mm - r) (r + 1) a b

/-- The `k` loop reducing `a` to upper echelon form (matrix.cpp lines
771-800); `fuel = n + 1 - k` iterations (`r` only grows, so the loop
guard `k <= n && r <= m` is rechecked each round).  The row-exchange
`sign` is tracked by the source only for an optional determinant
computation that is commented out; it does not influence the returned
solution and is omitted. -/
def ffe_reduce_loop (nf : XE → XE) (mm nn : Nat) :
    Nat → Nat → Nat → XE → List XE → List XE →
    Except String (List XE × List XE)
  | 0, _, _, _, a, b => .ok (a, b)
  | fuel + 1, k, r, divisor, a, b =>
    if k ≤ nn ∧ r ≤ mm then
      let p := ffe_find_pivot nn a mm k r
      if p ≤ mm then do
        let a1 := if p ≠ r then ffe_swap_rows nn p r k a else a
        let b1 := if p ≠ r then ffe_swap 1 b p 1 r 1 else b
        let (a2, b2) ← ffe_elim_rows nf nn mm k r divisor a1 b1
        ffe_reduce_loop nf mm nn fuel (k + 1) (r + 1) (ffe_get nn a2 r k) a2 b2
      else
        ffe_reduce_loop nf mm nn fuel (k + 1) r divisor a b
    else .ok (a, b)

/-- The echelon reduction starting at `k = r = 1` with `divisor = 1`. -/
def ffe_reduce (nf : XE → XE) (mm nn : Nat) (a b : List XE) :
    Except String (List XE × List XE) :=
  ffe_reduce_loop nf mm nn nn 1 1 (.num 1) a b

/-- `sol(c,1) := vars(c,1)` for `c = lo..hi` (the free-parameter
assignments, matrix.cpp lines 846-848 and 860-862); `fuel = hi + 1 - lo`
iterations. -/
def ffe_assign_free_loop (vars : List XE) : Nat → Nat → List XE → List XE
  | 0, _, sol => sol
  | fuel + 1, lo, sol =>
    ffe_assign_free_loop vars fuel (lo + 1) (ffe_set 1 sol lo 1 (ffe_get 1 vars lo 1))

/-- The free-parameter assignment for `c = lo..hi`. -/
def ffe_assign_free (vars : List XE) (sol : List XE) (lo hi : Nat) : List XE :=
  ffe_assign_free_loop vars (hi + 1 - lo) lo sol

/-- The scan for the first non-zero entry of row `r` (matrix.cpp lines
834-837); `fuel = n + 1 - c` iterations. -/
def ffe_first_non_zero_loop (nn : Nat) (a : List XE) (r : Nat) :
    Nat → Nat → Nat
  | 0, c => c
  | fuel + 1, c =>
    if xis_zero (ffe_get nn a r c) then ffe_first_non_zero_loop nn a r fuel (c + 1)
    else c

/-- The first-non-zero scan starting at column `c`. -/
def ffe_first_non_zero (nn : Nat) (a : List XE) (r c : Nat) : Nat :=
  ffe_first_non_zero_loop nn a r (nn + 1 - c) c

/-- The back-substitution accumulation `e := e - a(r,c)*sol(c,1)` for
`c = lo..n` (matrix.cpp lines 849-852); `fuel = n + 1 - lo`
iterations. -/
def ffe_backsub_loop (nn : Nat) (a sol : List XE) (r : Nat) :
    Nat → Nat → XE → XE
  | 0, _, e => e
  | fuel + 1, lo, e =>
    ffe_backsub_loop nn a sol r fuel (lo + 1)
      (xsub e (xmul (ffe_get nn a r lo) (ffe_get 1 sol lo 1)))

/-- The back-substitution sum for `c = lo..n`. -/
def ffe_backsub (nn : Nat) (a sol : List XE) (r lo : Nat) (e : XE) : XE :=
  ffe_backsub_loop nn a sol r (nn + 1 - lo) lo e

/-- The solution-assembly loop over rows `r = m..1` (matrix.cpp lines
831-862): a row of zeroes with non-zero right-hand side throws the
`singular matrix` runtime error; otherwise free parameters take their
variable, and the leading unknown of the row gets
`normal(e / a(r,first_non_zero))`.  After the last row the remaining
leading variables are assigned. -/
def ffe_assemble (nf : XE → XE) (nn : Nat) (a b vars : List XE) :
    Nat → Nat → List XE → Except String (List XE)
  | 0, last_assigned, sol => .ok (ffe_assign_free vars sol 1 (last_assigned - 1))
  | r + 1, last_assigned, sol =>
    let fnz := ffe_first_non_zero nn a (r + 1) 1
    if fnz > nn then
      if ¬xis_zero (ffe_get 1 b (r + 1) 1) then
        .error "matrix::fraction_free_elim(): singular matrix"
      else
        ffe_assemble nf nn a b vars r last_assigned sol
    else do
      let sol1 := ffe_assign_free vars sol (fnz + 1) (last_assigned - 1)
      let e := ffe_backsub nn a sol1 (r + 1) (fnz + 1) (ffe_get 1 b (r + 1) 1)
      let q ← xdiv e (ffe_get nn a (r + 1) fnz)
      ffe_assemble nf nn a b vars r fnz (ffe_set 1 sol1 fnz 1 (nf q))

/-- Embedding of `matrix::fraction_free_elim` (matrix.cpp lines
753-910) for an `m x n` coefficient matrix, an `m x 1` right-hand side
and an `n x 1` variable matrix: reduce to upper echelon form starting
with `divisor = 1`, then assemble the `n x 1` solution (throwing the
`singular matrix` runtime error when a zero row meets a non-zero
right-hand side). -/
def fraction_free_elim (nf : XE → XE) (mm nn : Nat) (A b vars : List XE) :
    Except String (List XE) := do
  let (a2, b2) ← ffe_reduce nf mm nn A b
  ffe_assemble nf nn a2 b2 vars mm (nn + 1) (List.replicate nn (.num 0))

/-- The solution list built by `lsolve` (inifcns_nstdsums.cpp lines
3169-3172): one pair `(symbol, solution entry)` per unknown, standing
for the relational `symbols.op(i) == solution(i,0)`. -/
def lsolve_sollist (nn : Nat) (vars sol : List XE) : List (XE × XE) :=
  (List.range nn).map (fun i => (ffe_get 1 vars (i + 1) 1, ffe_get 1 sol (i + 1) 1))

/-- Embedding of the solving phase of `lsolve` (inifcns_nstdsums.cpp
lines 3147-3174), after the equations have been turned into the
coefficient matrix `sys`, right-hand side `rhs` and variable matrix
`vars`: call `fraction_free_elim` inside a try block; a caught
`runtime_error` makes `lsolve` return the empty list as a normal result;
on success return the list of variable/solution pairs. -/
def lsolve_solve (nf : XE → XE) (mm nn : Nat) (sys rhs vars : List XE) :
    Except String (List (XE × XE)) :=
  match fraction_free_elim nf mm nn sys rhs vars with
  | .error _ => .ok []
  | .ok sol => .ok (lsolve_sollist nn vars sol)

/-- Counterexample to C2 at the singular system `0*x == 1` (coefficient
matrix `[[0]]`, right-hand side `[[1]]`): `fraction_free_elim` throws
the `singular matrix` runtime error, yet `lsolve` returns the normal
result `lst()` — the error is caught internally and swallowed. -/
theorem lsolve_swallows_error_counterexample :
    fraction_free_elim id 1 1 [XE.num 0] [XE.num 1] [XE.sym "x"]
      = .error "matrix::fraction_free_elim(): singular matrix" ∧
    lsolve_solve id 1 1 [XE.num 0] [XE.num 1] [XE.sym "x"] = .ok [] :=
  ⟨rfl, rfl⟩

/-- Claim C2 (amended): `lsolve` catches every `runtime_error` raised by
`fraction_free_elim` (e.g. on a singular system) and returns the empty
list as a normal result instead of propagating the failure; only on a
successful elimination does it return the variable/solution list. -/
theorem lsolve_catches_elimination_error (nf : XE → XE) (mm nn : Nat)
    (sys rhs vars : List XE) :
    ((∃ msg, fraction_free_elim nf mm nn sys rhs vars = .error msg) →
      lsolve_solve nf mm nn sys rhs vars = .ok []) ∧
    (∀ sol, fraction_free_elim nf mm nn sys rhs vars = .ok sol →
      lsolve_solve nf mm nn sys rhs vars = .ok (lsolve_sollist nn vars sol)) := by
  constructor
  · intro ⟨msg, hmsg⟩
    unfold lsolve_solve
    rw [hmsg]
  · intro sol hsol
    unfold lsolve_solve
    rw [hsol]

/-- Witness for the amended C2 at the singular system `0*x == 1`. -/
theorem lsolve_catches_elimination_error_witness :
    lsolve_solve id 1 1 [XE.num 0] [XE.num 1] [XE.sym "x"] = .ok [] :=
  (lsolve_catches_elimination_error id 1 1 [XE.num 0] [XE.num 1] [XE.sym "x"]).1
    ⟨"matrix::fraction_free_elim(): singular matrix", rfl⟩
